import Mathlib

/-!
Shallow embedding of the txtai `Scoring` class (src/python/txtai/scoring/base.py),
a TF-IDF relevance-scoring engine.  Python dictionaries and Counters are modelled
as association lists with unique keys; machine floats are idealized as real
numbers; the external `Terms` index, tokenizer and thread pool are opaque
collaborators passed in as parameters.  Fallible operations (dict.pop KeyError,
`None + float` TypeError) are modelled with `Option`/`Except`.
-/

namespace Txtai

/-- Tokens produced by the external tokenizer are plain strings. -/
abbrev Token := String

/-- Document payloads accepted by `Scoring.insert`: a text string, a
pre-tokenized list, a keyed record (Python dict, from which a text/object field
is extracted), or any other unsupported value. -/
inductive Doc where
  | str (text : String)
  | toks (tokens : List Token)
  | record (fields : List (String × Doc))
  | other

/-- Association-list lookup, the model of Python dict lookup. -/
def dlookup {κ α : Type} [DecidableEq κ] : List (κ × α) → κ → Option α
  | [], _ => none
  | p :: rest, k => if p.1 = k then some p.2 else dlookup rest k

/-- Association-list insert/overwrite, the model of `d[k] = v`: overwrites the
entry in place when the key exists, otherwise appends (Python dict insertion
order). -/
def dset {κ α : Type} [DecidableEq κ] : List (κ × α) → κ → α → List (κ × α)
  | [], k, v => [(k, v)]
  | p :: rest, k, v => if p.1 = k then (k, v) :: rest else p :: dset rest k v

/-- Association-list removal, the model of `dict.pop(k)`: `none` when the key is
missing (Python raises KeyError). -/
def dpop {κ α : Type} [DecidableEq κ] : List (κ × α) → κ → Option (List (κ × α))
  | [], _ => none
  | p :: rest, k => if p.1 = k then some rest else (dpop rest k).map (p :: ·)

/-- Counter read: missing keys count 0 (Python `Counter[k]`). -/
def cget {κ : Type} [DecidableEq κ] (c : List (κ × ℕ)) (k : κ) : ℕ :=
  (dlookup c k).getD 0

/-- Counter single-key increment, the building block of `Counter.update`. -/
def cinc {κ : Type} [DecidableEq κ] : List (κ × ℕ) → κ → List (κ × ℕ)
  | [], k => [(k, 1)]
  | p :: rest, k => if p.1 = k then (p.1, p.2 + 1) :: rest else p :: cinc rest k

/-- Counter multiset update: `Counter.update(xs)` increments once per occurrence. -/
def cupdate {κ : Type} [DecidableEq κ] (c : List (κ × ℕ)) (xs : List κ) : List (κ × ℕ) :=
  xs.foldl cinc c

/-- Python `max` over a list of reals (the guarded calls only reach non-empty
lists; the `[]` case is an arbitrary default). -/
noncomputable def maxListR : List ℝ → ℝ
  | [] => 0
  | x :: xs => xs.foldl max x

/-- Python `max` over a non-empty list of natural-number counts. -/
def maxListN (l : List ℕ) : ℕ := l.foldl max 0

/-- Scoring configuration options recognized by `Scoring.__init__`. -/
structure Config where
  terms : Bool := false
  content : Bool := false
  normalize : Bool := false
  text : String := "text"
  object : String := "object"

/-- The `Scoring` instance state: statistics counters, derived aggregates, the
optional term-index handle (abstract type τ) and the optional content store.
`avgscore` is `none` until a finalize with non-empty statistics (Python inits it
to `None`). -/
structure Scoring (τ : Type) where
  config : Config
  total : ℕ
  tokens : ℕ
  avgdl : ℝ
  docfreq : List (Token × ℕ)
  wordfreq : List (Token × ℕ)
  avgfreq : ℝ
  idf : List (Token × ℝ)
  avgidf : ℝ
  tags : List (Token × ℕ)
  text : String
  object : String
  terms : Option τ
  documents : Option (List (ℕ × Doc))
  normalize : Bool
  avgscore : Option ℝ

variable {τ : Type}

/-- Constructor `Scoring.__init__(config)`: empty counters, aggregates zeroed,
`avgscore = None`; the term index is created when configured (fresh state `t0`),
the content store when `content` is enabled. -/
def Scoring.init (config : Config) (t0 : τ) : Scoring τ :=
  { config := config, total := 0, tokens := 0, avgdl := 0, docfreq := [], wordfreq := [],
    avgfreq := 0, idf := [], avgidf := 0, tags := [],
    text := config.text, object := config.object,
    terms := if config.terms then some t0 else none,
    documents := if config.content then some [] else none,
    normalize := config.normalize, avgscore := none }

/-- Method `computefreq(tokens)`: `Counter(tokens)` read as a function. -/
def computefreq (tokens : List Token) : Token → ℕ :=
  fun token => tokens.count token

/-- Method `computeidf(freq)`: `np.log((self.total + 1) / (freq + 1)) + 1`. -/
noncomputable def computeidf (total freq : ℕ) : ℝ :=
  Real.log (((total : ℝ) + 1) / ((freq : ℝ) + 1)) + 1

/-- Method `score(freq, idf, length)`: the default TF-IDF law
`idf * np.sqrt(freq) * (1 / np.sqrt(length))`. -/
noncomputable def score (freq idf length : ℝ) : ℝ :=
  idf * Real.sqrt freq * (1 / Real.sqrt length)

/-- Python `tags.split()` on a whitespace-delimited tag string. -/
def splitTags (tags : String) : List String :=
  (tags.splitOn " ").filter (fun t => t ≠ "")

/-- Method `addstats(tokens, tags)`: `wordfreq.update(tokens)`,
`docfreq.update(set(tokens))`, `tags.update(tags.split())` when the tag string
is truthy, `total += 1`. -/
def Scoring.addstats (s : Scoring τ) (tokens : List Token) (tags : String) : Scoring τ :=
  { s with
    wordfreq := cupdate s.wordfreq tokens
    docfreq := cupdate s.docfreq tokens.dedup
    tags := if tags ≠ "" then cupdate s.tags (splitTags tags) else s.tags
    total := s.total + 1 }

/-- Field extraction for dict documents:
`document.get(self.text, document.get(self.object))`; non-dict documents pass
through unchanged (and are never `None`). -/
def extract (textCol objCol : String) (d : Doc) : Option Doc :=
  match d with
  | .record fields =>
      match dlookup fields textCol with
      | some v => some v
      | none => dlookup fields objCol
  | d => some d

/-- Accepted-content predicate: after extraction the document must be a string
or a token list to contribute to the index (`isinstance(document, (str, list))`). -/
def accepts (textCol objCol : String) (d : ℕ × Doc × String) : Bool :=
  match extract textCol objCol d.2.1 with
  | some (.str _) => true
  | some (.toks _) => true
  | _ => false

/-- Body of the accepted branch of `insert`: store content, forward tokens to
the term index (`tins`), then `addstats`. -/
def Scoring.ingest (tins : τ → ℕ → List Token → τ) (s : Scoring τ) (uid : ℕ)
    (tokens : List Token) (content : Doc) (tags : String) : Scoring τ :=
  let s :=
    match s.documents with
    | some ds => { s with documents := some (dset ds uid content) }
    | none => s
  let s :=
    match s.terms with
    | some t => { s with terms := some (tins t uid tokens) }
    | none => s
  s.addstats tokens tags

/-- One iteration of the `insert` loop over `(uid, document, tags)`: extract
text from dict documents, skip `None`, resolve the uid from the running index
offset when present, tokenize strings with the external tokenizer `tok`,
ingest accepted content, and advance the index offset. -/
def Scoring.insertOne (tok : String → List Token) (tins : τ → ℕ → List Token → τ)
    (acc : Scoring τ × Option ℕ) (d : ℕ × Doc × String) : Scoring τ × Option ℕ :=
  let (s, idx) := acc
  let (uid0, document, tags) := d
  match extract s.text s.object document with
  | none => (s, idx)
  | some doc =>
      let uid := idx.getD uid0
      let s2 :=
        match doc with
        | .str text => Scoring.ingest tins s uid (tok text) (.str text) tags
        | .toks ts => Scoring.ingest tins s uid ts (.toks ts) tags
        | _ => s
      (s2, idx.map (· + 1))

/-- Method `insert(documents, index)`: folds `insertOne` over the batch,
threading the state and the optional index offset. -/
def Scoring.insert (tok : String → List Token) (tins : τ → ℕ → List Token → τ)
    (s : Scoring τ) (documents : List (ℕ × Doc × String)) (index : Option ℕ) :
    Scoring τ × Option ℕ :=
  documents.foldl (Scoring.insertOne tok tins) (s, index)

/-- Tag-pruning predicate of `index()`: keep a tag iff
`number >= self.total * 0.005` (exact rational arithmetic). -/
def keepTag (total number : ℕ) : Bool :=
  decide ((total : ℚ) * (5 / 1000) ≤ (number : ℚ))

/-- Aggregate block of method `index()` (the finalize step): when `wordfreq` is
non-empty, computes `tokens`, `avgfreq`, `avgdl`, the `idf` entry of every
`docfreq` token, `avgidf` (the mean of the computed idf values), `avgscore`,
and prunes `tags`; otherwise a no-op. -/
noncomputable def Scoring.finalizeStats (s : Scoring τ) : Scoring τ :=
  if s.wordfreq = [] then s
  else
    let tokens : ℕ := (s.wordfreq.map (fun p => p.2)).sum
    let avgfreq := (tokens : ℝ) / (s.wordfreq.length : ℝ)
    let avgdl := (tokens : ℝ) / (s.total : ℝ)
    let idf := s.docfreq.foldl (fun m p => dset m p.1 (computeidf s.total p.2)) s.idf
    let avgidf := (s.docfreq.map (fun p => computeidf s.total p.2)).sum / (s.docfreq.length : ℝ)
    let avgscore := score avgfreq avgidf avgdl
    let tags := s.tags.filter (fun p => keepTag s.total p.2)
    { s with tokens := tokens, avgfreq := avgfreq, avgdl := avgdl, idf := idf,
             avgidf := avgidf, avgscore := some avgscore, tags := tags }

/-- Method `index(documents)`: optional bulk insert, the finalize step, then the
external term-index build (`tindex`). -/
noncomputable def Scoring.index (tok : String → List Token) (tins : τ → ℕ → List Token → τ)
    (tindex : τ → τ) (s : Scoring τ) (documents : Option (List (ℕ × Doc × String))) : Scoring τ :=
  let s :=
    match documents with
    | some docs => (Scoring.insert tok tins s docs none).1
    | none => s
  let s := s.finalizeStats
  match s.terms with
  | some t => { s with terms := some (tindex t) }
  | none => s

/-- Terms-build step at the end of `index()`: trigger the external term-index
build when one is configured, leaving every other field unchanged. -/
def termsStep (tindex : τ → τ) (g : Scoring τ) : Scoring τ :=
  match g.terms with
  | some t => { g with terms := some (tindex t) }
  | none => g

/-- Method `upsert(documents)` is an alias for `index(documents)`. -/
noncomputable def Scoring.upsert (tok : String → List Token) (tins : τ → ℕ → List Token → τ)
    (tindex : τ → τ) (s : Scoring τ) (documents : Option (List (ℕ × Doc × String))) : Scoring τ :=
  Scoring.index tok tins tindex s documents

/-- The idf lookup of `weights`: `self.idf[token] if token in self.idf else self.avgidf`. -/
def idfOrAvg (s : Scoring τ) (token : Token) : ℝ :=
  match dlookup s.idf token with
  | some v => v
  | none => s.avgidf

/-- The matched-tag tokens of the boost block:
`{token: self.tags[token] for token in tokens if token in self.tags}` (dict
keys, hence deduplicated; only membership and the maximum count are consumed,
both independent of ordering). -/
def matchedTags (tags : List (Token × ℕ)) (tokens : List Token) : List Token :=
  (tokens.filter (fun t => (dlookup tags t).isSome)).dedup

/-- Tag Booster (the boost block of `weights`): when the tag counter is truthy
and some token matches it, replace each matched token weight by
`max(maxWeight * (tags[token] / maxTag), weight)` where `maxWeight` is the max
over all weights and `maxTag` the max document count among matched tags. -/
noncomputable def boost (tags : List (Token × ℕ)) (tokens : List Token) (weights : List ℝ) :
    List ℝ :=
  if tags = [] then weights
  else
    let matched := matchedTags tags tokens
    if matched = [] then weights
    else
      let maxWeight := maxListR weights
      let maxTag := maxListN (matched.map (cget tags))
      (tokens.zip weights).map (fun p =>
        if (dlookup tags p.1).isSome then
          max (maxWeight * ((cget tags p.1 : ℝ) / (maxTag : ℝ))) p.2
        else p.2)

/-- Method `weights(tokens)`: in-sequence term frequency, idf with `avgidf`
fallback, the score law applied per token, then the Tag Booster. -/
noncomputable def Scoring.weights (s : Scoring τ) (tokens : List Token) : List ℝ :=
  let length := tokens.length
  let freq := computefreq tokens
  let ws := tokens.map (fun token =>
    score ((freq token : ℕ) : ℝ) (idfOrAvg s token) ((length : ℕ) : ℝ))
  boost s.tags tokens ws

/-- Score normalization block of `search`:
`maxscore = min(scores[0][1] + avgscore, 6 * avgscore)`, each score becomes
`min(score / maxscore, 1.0)`. -/
noncomputable def normalizeScores (avgscore : ℝ) (scores : List (ℕ × ℝ)) : List (ℕ × ℝ) :=
  match scores with
  | [] => []
  | (_, top) :: _ =>
      let maxscore := min (top + avgscore) (6 * avgscore)
      scores.map (fun p => (p.1, min (p.2 / maxscore) 1))

/-- Method `results(scores)`: join ids with stored content when the content
store is truthy (non-empty); scores pass through unchanged either way. -/
def Scoring.results (documents : Option (List (ℕ × Doc))) (scores : List (ℕ × ℝ)) :
    List (ℕ × Option Doc × ℝ) :=
  match documents with
  | some ds =>
      if ds.isEmpty then scores.map (fun p => (p.1, none, p.2))
      else scores.map (fun p => (p.1, dlookup ds p.1, p.2))
  | none => scores.map (fun p => (p.1, none, p.2))

/-- Method `search(query, limit)`: `None` without a term index; otherwise the
term-index matches (`tsearch`), normalized when enabled and non-empty.  Before
any finalize `avgscore` is `None` and Python raises a TypeError at
`scores[0][1] + self.avgscore`; that raise is modelled as `Except.error`. -/
noncomputable def Scoring.search (tsearch : τ → List Token → ℕ → List (ℕ × ℝ))
    (s : Scoring τ) (query : List Token) (limit : ℕ) :
    Except String (Option (List (ℕ × Option Doc × ℝ))) :=
  match s.terms with
  | none => .ok none
  | some t =>
      let scores := tsearch t query limit
      if s.normalize = true ∧ scores ≠ [] then
        match s.avgscore with
        | none => .error "avgscore is undefined before finalize"
        | some a => .ok (some (Scoring.results s.documents (normalizeScores a scores)))
      else .ok (some (Scoring.results s.documents scores))

/-- Method `count()`: the term-index count when configured, else local `total`. -/
def Scoring.count (tcount : τ → ℕ) (s : Scoring τ) : ℕ :=
  match s.terms with
  | some t => tcount t
  | none => s.total

/-- Thread sizing of `batchsearch`: `ceil(count / 25000)` when `threads` is the
boolean `True`, `int(threads)` otherwise, clamped to `[1, cpu_count]`. -/
def computeThreads (count cpus : ℕ) (threads : Bool ⊕ ℕ) : ℕ :=
  let t :=
    match threads with
    | Sum.inl true => (count + 24999) / 25000
    | Sum.inl false => 0
    | Sum.inr n => n
  min (max t 1) cpus

/-- Method `batchsearch(queries, limit, threads)`: sizes the thread pool via
`computeThreads` and runs `pool.starmap(self.search, ...)`.  `starmap` applies
`search` to each query and collects results in input-argument order regardless
of completion order, so it is modelled as an order-preserving map; the computed
thread count does not affect the value of the result. -/
noncomputable def Scoring.batchsearch (tsearch : τ → List Token → ℕ → List (ℕ × ℝ))
    (tcount : τ → ℕ) (cpus : ℕ) (s : Scoring τ) (queries : List (List Token)) (limit : ℕ)
    (threads : Bool ⊕ ℕ) : List (Except String (Option (List (ℕ × Option Doc × ℝ)))) :=
  let nthreads := computeThreads (Scoring.count tcount s) cpus threads
  let pool := nthreads
  let _ := pool
  queries.map (fun q => Scoring.search tsearch s q limit)

/-- The pop loop of `delete`: pops ids one at a time; a missing key aborts with
that id (the KeyError), keeping the pops already performed. -/
def popAll {α : Type} : List (ℕ × α) → List ℕ → List (ℕ × α) × Option ℕ
  | ds, [] => (ds, none)
  | ds, i :: rest =>
      match dpop ds i with
      | some ds2 => popAll ds2 rest
      | none => (ds, some i)

/-- Method `delete(ids)`: forward to the term-index delete (`tdel`) when
configured, then pop each id from the content store when it is truthy
(non-empty).  The second component is the KeyError id, `none` on success. -/
def Scoring.delete (tdel : τ → List ℕ → τ) (s : Scoring τ) (ids : List ℕ) :
    Scoring τ × Option ℕ :=
  let s1 :=
    match s.terms with
    | some t => { s with terms := some (tdel t ids) }
    | none => s
  match s1.documents with
  | some ds =>
      if ds.isEmpty then (s1, none)
      else
        let r := popAll ds ids
        ({ s1 with documents := some r.1 }, r.2)
  | none => (s1, none)

/-- Persisted snapshot of `save`: every instance field except the skipfields
`config`, `terms` and `tokenizer`. -/
structure Snapshot where
  total : ℕ
  tokens : ℕ
  avgdl : ℝ
  docfreq : List (Token × ℕ)
  wordfreq : List (Token × ℕ)
  avgfreq : ℝ
  idf : List (Token × ℝ)
  avgidf : ℝ
  tags : List (Token × ℕ)
  text : String
  object : String
  documents : Option (List (ℕ × Doc))
  normalize : Bool
  avgscore : Option ℝ

/-- Method `save(path)`: pickle of `__dict__` minus the skipfields. -/
def Scoring.save (s : Scoring τ) : Snapshot :=
  { total := s.total, tokens := s.tokens, avgdl := s.avgdl, docfreq := s.docfreq,
    wordfreq := s.wordfreq, avgfreq := s.avgfreq, idf := s.idf, avgidf := s.avgidf,
    tags := s.tags, text := s.text, object := s.object, documents := s.documents,
    normalize := s.normalize, avgscore := s.avgscore }

/-- Method `load(path)`: `__dict__.update(pickle.load(...))` on the receiving
instance, then reconstruction of the term index (`trec`) when configured. -/
def Scoring.load (trec : τ) (snap : Snapshot) (s : Scoring τ) : Scoring τ :=
  let s := { s with total := snap.total, tokens := snap.tokens, avgdl := snap.avgdl,
                    docfreq := snap.docfreq, wordfreq := snap.wordfreq,
                    avgfreq := snap.avgfreq, idf := snap.idf, avgidf := snap.avgidf,
                    tags := snap.tags, text := snap.text, object := snap.object,
                    documents := snap.documents, normalize := snap.normalize,
                    avgscore := snap.avgscore }
  if s.config.terms then { s with terms := some trec } else s

/-- Concrete engine state over a recording term index, used to exercise the
theorems on explicit inputs. -/
def sampleState : Scoring (List ℕ) :=
  { config := { terms := true, content := true, normalize := true },
    total := 2, tokens := 0, avgdl := 0,
    docfreq := [("a", 2), ("b", 1)], wordfreq := [("a", 2), ("b", 1)],
    avgfreq := 0, idf := [], avgidf := 0, tags := [("x", 10)],
    text := "text", object := "object", terms := some [],
    documents := some [(1, Doc.str "a b")], normalize := true, avgscore := none }

/-! Dictionary lemmas shared by the claim theorems. -/

theorem dlookup_eq_none_iff {κ α : Type} [DecidableEq κ] (ds : List (κ × α)) (k : κ) :
    dlookup ds k = none ↔ k ∉ ds.map Prod.fst := by
  induction ds with
  | nil => simp [dlookup]
  | cons p rest ih =>
    rw [dlookup, List.map_cons]
    by_cases h : p.1 = k
    · rw [if_pos h]
      simp only [List.mem_cons]
      constructor
      · intro hl; cases hl
      · intro hm; exact absurd (Or.inl h.symm) hm
    · rw [if_neg h, ih]
      simp only [List.mem_cons]
      constructor
      · intro hl hor
        rcases hor with h1 | h2
        · exact h h1.symm
        · exact hl h2
      · intro hm h2
        exact hm (Or.inr h2)

theorem dlookup_dset_self {κ α : Type} [DecidableEq κ] (m : List (κ × α)) (k : κ) (v : α) :
    dlookup (dset m k v) k = some v := by
  induction m with
  | nil => simp [dset, dlookup]
  | cons p rest ih => by_cases h : p.1 = k <;> simp [dset, dlookup, h, ih]

theorem dlookup_dset_ne {κ α : Type} [DecidableEq κ] (m : List (κ × α)) (k k2 : κ) (v : α)
    (h : k2 ≠ k) : dlookup (dset m k v) k2 = dlookup m k2 := by
  have h2 : ¬ k = k2 := fun hh => h hh.symm
  induction m with
  | nil => simp [dset, dlookup, h2]
  | cons p rest ih =>
    by_cases hp : p.1 = k
    · have hp2 : ¬ p.1 = k2 := by rw [hp]; exact h2
      simp [dset, dlookup, hp, hp2, h2]
    · simp [dset, dlookup, hp, ih]

theorem dlookup_foldl_dset_not_mem {κ α β : Type} [DecidableEq κ] (g : (κ × β) → α)
    (l : List (κ × β)) (m : List (κ × α)) (k : κ) (hk : k ∉ l.map Prod.fst) :
    dlookup (l.foldl (fun m2 q => dset m2 q.1 (g q)) m) k = dlookup m k := by
  induction l generalizing m with
  | nil => rfl
  | cons q rest ih =>
    rw [List.foldl_cons, ih _ (fun h => hk (by simp [h]))]
    exact dlookup_dset_ne m q.1 k (g q) (fun h => hk (by simp [h]))

theorem dlookup_foldl_dset {κ α β : Type} [DecidableEq κ] (g : (κ × β) → α)
    (l : List (κ × β)) (m : List (κ × α)) (hnd : (l.map Prod.fst).Nodup) :
    ∀ p ∈ l, dlookup (l.foldl (fun m2 q => dset m2 q.1 (g q)) m) p.1 = some (g p) := by
  induction l generalizing m with
  | nil => simp
  | cons q rest ih =>
    intro p hp
    rw [List.map_cons, List.nodup_cons] at hnd
    rcases List.mem_cons.mp hp with rfl | hmem
    · rw [List.foldl_cons, dlookup_foldl_dset_not_mem g rest _ p.1 hnd.1]
      exact dlookup_dset_self m p.1 (g p)
    · rw [List.foldl_cons]
      exact ih (dset m q.1 (g q)) hnd.2 p hmem

theorem dpop_eq_none_iff {κ α : Type} [DecidableEq κ] (ds : List (κ × α)) (k : κ) :
    dpop ds k = none ↔ dlookup ds k = none := by
  induction ds with
  | nil => simp [dpop, dlookup]
  | cons p rest ih =>
    by_cases h : p.1 = k <;> simp [dpop, dlookup, h, ih]

theorem dpop_sublist {κ α : Type} [DecidableEq κ] {ds ds2 : List (κ × α)} {k : κ}
    (h : dpop ds k = some ds2) : ds2.Sublist ds := by
  induction ds generalizing ds2 with
  | nil => simp [dpop] at h
  | cons p rest ih =>
    by_cases hp : p.1 = k
    · rw [dpop, if_pos hp] at h
      cases h
      exact List.sublist_cons_self p _
    · rw [dpop, if_neg hp, Option.map_eq_some'] at h
      obtain ⟨r2, hr, rfl⟩ := h
      exact (ih hr).cons₂ p

theorem dlookup_none_of_sublist {κ α : Type} [DecidableEq κ] {ds ds2 : List (κ × α)} {k : κ}
    (hsub : ds2.Sublist ds) (h : dlookup ds k = none) : dlookup ds2 k = none := by
  rw [dlookup_eq_none_iff] at h ⊢
  exact fun hmem => h ((hsub.map Prod.fst).subset hmem)

theorem dpop_lookup_none_self {κ α : Type} [DecidableEq κ] {ds ds2 : List (κ × α)} {k : κ}
    (hnd : (ds.map Prod.fst).Nodup) (h : dpop ds k = some ds2) : dlookup ds2 k = none := by
  induction ds generalizing ds2 with
  | nil => simp [dpop] at h
  | cons p rest ih =>
    rw [List.map_cons, List.nodup_cons] at hnd
    by_cases hp : p.1 = k
    · rw [dpop, if_pos hp] at h
      cases h
      rw [dlookup_eq_none_iff]
      rw [hp] at hnd
      exact hnd.1
    · rw [dpop, if_neg hp, Option.map_eq_some'] at h
      obtain ⟨r2, hr, rfl⟩ := h
      simp [dlookup, hp, ih hnd.2 hr]

theorem popAll_sublist {α : Type} (ds : List (ℕ × α)) (ids : List ℕ) :
    (popAll ds ids).1.Sublist ds := by
  induction ids generalizing ds with
  | nil => simp [popAll]
  | cons i rest ih =>
    rcases hd : dpop ds i with _ | ds2
    · simp [popAll, hd]
    · simp only [popAll, hd]
      exact (ih ds2).trans (dpop_sublist hd)

theorem popAll_success_removes {α : Type} (ds : List (ℕ × α)) (ids : List ℕ) :
    (ds.map Prod.fst).Nodup → (popAll ds ids).2 = none →
    ∀ id ∈ ids, dlookup (popAll ds ids).1 id = none := by
  induction ids generalizing ds with
  | nil => simp
  | cons i rest ih =>
    intro hnd hok id hid
    rcases hd : dpop ds i with _ | ds2
    · rw [popAll, hd] at hok
      simp at hok
    · simp only [popAll, hd] at hok ⊢
      have hnd2 : (ds2.map Prod.fst).Nodup := hnd.sublist ((dpop_sublist hd).map Prod.fst)
      rcases List.mem_cons.mp hid with rfl | hmem
      · exact dlookup_none_of_sublist (popAll_sublist ds2 rest) (dpop_lookup_none_self hnd hd)
      · exact ih ds2 hnd2 hok id hmem

theorem popAll_fails {α : Type} (ds : List (ℕ × α)) (ids : List ℕ) (bad : ℕ) :
    bad ∈ ids → dlookup ds bad = none → (popAll ds ids).2 ≠ none := by
  induction ids generalizing ds with
  | nil => intro h _; simp at h
  | cons i rest ih =>
    intro hmem hmiss
    rcases hd : dpop ds i with _ | ds2
    · simp [popAll, hd]
    · simp only [popAll, hd]
      rcases List.mem_cons.mp hmem with rfl | hmem2
      · rw [(dpop_eq_none_iff ds bad).mpr hmiss] at hd
        cases hd
      · exact ih ds2 hmem2 (dlookup_none_of_sublist (dpop_sublist hd) hmiss)

/-! Properties of the IDF formula. -/

theorem computeidf_strict_anti (N df df2 : ℕ) (hlt : df < df2) :
    computeidf N df2 < computeidf N df := by
  have h1 : (0 : ℝ) < (N : ℝ) + 1 := by positivity
  have h2 : (0 : ℝ) < (df : ℝ) + 1 := by positivity
  have h3 : ((df : ℝ) + 1) < ((df2 : ℝ) + 1) := by
    have : (df : ℝ) < (df2 : ℝ) := by exact_mod_cast hlt
    linarith
  have hdiv : ((N : ℝ) + 1) / ((df2 : ℝ) + 1) < ((N : ℝ) + 1) / ((df : ℝ) + 1) :=
    div_lt_div_of_pos_left h1 h2 h3
  have hlog := Real.log_lt_log (by positivity) hdiv
  unfold computeidf
  linarith

theorem one_le_computeidf (N df : ℕ) (hle : df ≤ N) : 1 ≤ computeidf N df := by
  have h2 : (0 : ℝ) < (df : ℝ) + 1 := by positivity
  have hx : (1 : ℝ) ≤ ((N : ℝ) + 1) / ((df : ℝ) + 1) := by
    rw [le_div_iff₀ h2]
    have : (df : ℝ) ≤ (N : ℝ) := by exact_mod_cast hle
    linarith
  have hlog := Real.log_nonneg hx
  unfold computeidf
  linarith

/-- Claim C4: the IDF law.  `computeidf` satisfies
`computeIDF(df, N) = ln((N + 1) / (df + 1)) + 1`, is strictly decreasing in the
document frequency for fixed total, and is at least 1 whenever `df <= N`. -/
theorem claim_C4 (df df2 N : ℕ) (hlt : df < df2) (hle : df ≤ N) :
    computeidf N df = Real.log (((N : ℝ) + 1) / ((df : ℝ) + 1)) + 1 ∧
    computeidf N df2 < computeidf N df ∧
    1 ≤ computeidf N df :=
  ⟨rfl, computeidf_strict_anti N df df2 hlt, one_le_computeidf N df hle⟩

/-- Witness for C4 at df = 1, df2 = 2, N = 5. -/
theorem claim_C4_witness :
    computeidf 5 1 = Real.log (((5 : ℕ) + 1 : ℝ) / ((1 : ℕ) + 1 : ℝ)) + 1 ∧
    computeidf 5 2 < computeidf 5 1 ∧
    1 ≤ computeidf 5 1 :=
  claim_C4 1 2 5 (by decide) (by decide)

/-- Claim C8: persistence round-trip.  Saving a snapshot and loading it on a
fresh engine restores total, tokens, avgdl, wordfreq, docfreq, avgfreq, idf,
avgidf, tags, normalize, avgscore and documents verbatim; config, terms and
tokenizer are skipped and reconstructed separately. -/
theorem claim_C8 {τ : Type} (trec : τ) (s fresh : Scoring τ) :
    (Scoring.load trec (Scoring.save s) fresh).total = s.total ∧
    (Scoring.load trec (Scoring.save s) fresh).tokens = s.tokens ∧
    (Scoring.load trec (Scoring.save s) fresh).avgdl = s.avgdl ∧
    (Scoring.load trec (Scoring.save s) fresh).wordfreq = s.wordfreq ∧
    (Scoring.load trec (Scoring.save s) fresh).docfreq = s.docfreq ∧
    (Scoring.load trec (Scoring.save s) fresh).avgfreq = s.avgfreq ∧
    (Scoring.load trec (Scoring.save s) fresh).idf = s.idf ∧
    (Scoring.load trec (Scoring.save s) fresh).avgidf = s.avgidf ∧
    (Scoring.load trec (Scoring.save s) fresh).tags = s.tags ∧
    (Scoring.load trec (Scoring.save s) fresh).normalize = s.normalize ∧
    (Scoring.load trec (Scoring.save s) fresh).avgscore = s.avgscore ∧
    (Scoring.load trec (Scoring.save s) fresh).documents = s.documents ∧
    (Scoring.load trec (Scoring.save s) fresh).config = fresh.config := by
  simp only [Scoring.load, Scoring.save]
  split <;> simp

/-- Claim C9: delete frame effect.  Deleting forwards the ids to the term index
and removes matching entries from the content store, while every corpus
statistic (total, wordfreq, docfreq, idf, tags, avgscore, tokens, avgdl,
avgfreq, avgidf, normalize) is left unchanged. -/
theorem claim_C9 {τ : Type} (tdel : τ → List ℕ → τ) (s : Scoring τ) (ids : List ℕ) :
    ((Scoring.delete tdel s ids).1.total = s.total) ∧
    ((Scoring.delete tdel s ids).1.wordfreq = s.wordfreq) ∧
    ((Scoring.delete tdel s ids).1.docfreq = s.docfreq) ∧
    ((Scoring.delete tdel s ids).1.idf = s.idf) ∧
    ((Scoring.delete tdel s ids).1.tags = s.tags) ∧
    ((Scoring.delete tdel s ids).1.avgscore = s.avgscore) ∧
    ((Scoring.delete tdel s ids).1.tokens = s.tokens) ∧
    ((Scoring.delete tdel s ids).1.avgdl = s.avgdl) ∧
    ((Scoring.delete tdel s ids).1.avgfreq = s.avgfreq) ∧
    ((Scoring.delete tdel s ids).1.avgidf = s.avgidf) ∧
    ((Scoring.delete tdel s ids).1.normalize = s.normalize) ∧
    ((Scoring.delete tdel s ids).1.terms = s.terms.map (fun t => tdel t ids)) ∧
    (∀ ds, s.documents = some ds → (ds.map Prod.fst).Nodup →
      (Scoring.delete tdel s ids).2 = none →
      ∃ ds2, (Scoring.delete tdel s ids).1.documents = some ds2 ∧
        ∀ id ∈ ids, dlookup ds2 id = none) := by
  obtain ⟨cfg, total, tokens, avgdl, docfreq, wordfreq, avgfreq, idf, avgidf, tags,
    text, obj, terms, documents, normalize, avgscore⟩ := s
  rcases terms with _ | t <;> rcases documents with _ | ds <;>
    simp only [Scoring.delete, Option.map_none, Option.map_some]
  · refine ⟨trivial, trivial, trivial, trivial, trivial, trivial, trivial, trivial,
      trivial, trivial, trivial, rfl, ?_⟩
    intro ds0 h
    cases h
  · by_cases hemp : ds.isEmpty
    · simp only [hemp, if_true]
      refine ⟨trivial, trivial, trivial, trivial, trivial, trivial, trivial, trivial,
        trivial, trivial, trivial, by trivial, ?_⟩
      intro ds0 h hnd hok
      cases h
      rw [List.isEmpty_iff] at hemp
      subst hemp
      exact ⟨[], rfl, fun id hid => rfl⟩
    · simp only [hemp, Bool.false_eq_true, if_false]
      refine ⟨trivial, trivial, trivial, trivial, trivial, trivial, trivial, trivial,
        trivial, trivial, trivial, by trivial, ?_⟩
      intro ds0 h hnd hok
      cases h
      exact ⟨(popAll ds ids).1, rfl, popAll_success_removes ds ids hnd hok⟩
  · refine ⟨trivial, trivial, trivial, trivial, trivial, trivial, trivial, trivial,
      trivial, trivial, trivial, rfl, ?_⟩
    intro ds0 h
    cases h
  · by_cases hemp : ds.isEmpty
    · simp only [hemp, if_true]
      refine ⟨trivial, trivial, trivial, trivial, trivial, trivial, trivial, trivial,
        trivial, trivial, trivial, by trivial, ?_⟩
      intro ds0 h hnd hok
      cases h
      rw [List.isEmpty_iff] at hemp
      subst hemp
      exact ⟨[], rfl, fun id hid => rfl⟩
    · simp only [hemp, Bool.false_eq_true, if_false]
      refine ⟨trivial, trivial, trivial, trivial, trivial, trivial, trivial, trivial,
        trivial, trivial, trivial, by trivial, ?_⟩
      intro ds0 h hnd hok
      cases h
      exact ⟨(popAll ds ids).1, rfl, popAll_success_removes ds ids hnd hok⟩

/-- Witness for C9 on the sample state, deleting the present id 1. -/
theorem claim_C9_witness :
    ((Scoring.delete (fun (t : List ℕ) ids => t ++ ids) sampleState [1]).1.total
      = sampleState.total) ∧
    (∃ ds2, (Scoring.delete (fun (t : List ℕ) ids => t ++ ids) sampleState [1]).1.documents
        = some ds2 ∧ ∀ id ∈ [1], dlookup ds2 id = none) := by
  obtain ⟨h1, _, _, _, _, _, _, _, _, _, _, _, h13⟩ :=
    claim_C9 (fun (t : List ℕ) ids => t ++ ids) sampleState [1]
  exact ⟨h1, h13 [(1, Doc.str "a b")] rfl (by simp) rfl⟩

/-- Claim C10: delete with an id missing from a non-empty content store fails
with a KeyError after the term-index deletion has already been applied. -/
theorem claim_C10 {τ : Type} (tdel : τ → List ℕ → τ) (s : Scoring τ) (t : τ)
    (ids : List ℕ) (ds : List (ℕ × Doc)) (bad : ℕ)
    (hterms : s.terms = some t) (hdocs : s.documents = some ds) (hne : ds ≠ [])
    (hmem : bad ∈ ids) (hmiss : dlookup ds bad = none) :
    (Scoring.delete tdel s ids).2 ≠ none ∧
    (Scoring.delete tdel s ids).1.terms = some (tdel t ids) := by
  have hemp : ds.isEmpty = false := by
    rw [List.isEmpty_eq_false_iff_exists_mem]
    rcases ds with _ | ⟨p, rest⟩
    · exact absurd rfl hne
    · exact ⟨p, List.mem_cons_self p rest⟩
  unfold Scoring.delete
  rw [hterms]
  simp only [hdocs, hemp, Bool.false_eq_true, if_false]
  exact ⟨popAll_fails ds ids bad hmem hmiss, by trivial⟩

/-- Witness for C10: deleting the absent id 2 from the sample state fails while
the term index has recorded the deletion. -/
theorem claim_C10_witness :
    (Scoring.delete (fun (t : List ℕ) ids => t ++ ids) sampleState [2]).2 ≠ none ∧
    (Scoring.delete (fun (t : List ℕ) ids => t ++ ids) sampleState [2]).1.terms
      = some ([] ++ [2]) :=
  claim_C10 (fun t ids => t ++ ids) sampleState [] [2] [(1, Doc.str "a b")] 2
    rfl rfl (by simp) (by simp) rfl

/-! Lemmas about the Tag Booster. -/

theorem matchedTags_eq_nil (tg : List (Token × ℕ)) (tokens : List Token)
    (h : ∀ tk ∈ tokens, dlookup tg tk = none) : matchedTags tg tokens = [] := by
  unfold matchedTags
  rw [List.dedup_eq_nil, List.filter_eq_nil_iff]
  intro a ha
  simp [h a ha]

theorem mem_matchedTags (tg : List (Token × ℕ)) (tokens : List Token) (tk : Token)
    (hmem : tk ∈ tokens) (hsome : (dlookup tg tk).isSome) : tk ∈ matchedTags tg tokens := by
  unfold matchedTags
  rw [List.mem_dedup, List.mem_filter]
  exact ⟨hmem, by simpa using hsome⟩

theorem boost_length (tg : List (Token × ℕ)) (tokens : List Token) (ws : List ℝ)
    (hlen : ws.length = tokens.length) : (boost tg tokens ws).length = ws.length := by
  simp only [boost]
  split_ifs <;> simp [List.length_zip, hlen]

theorem boost_getElem (tg : List (Token × ℕ)) (tokens : List Token) (ws : List ℝ)
    (hlen : ws.length = tokens.length) (i : ℕ) (h1 : i < ws.length) (h2 : i < tokens.length) :
    (boost tg tokens ws)[i]? =
      some (if tg ≠ [] ∧ matchedTags tg tokens ≠ [] ∧ (dlookup tg tokens[i]).isSome then
        max (maxListR ws * ((cget tg tokens[i] : ℝ) /
          (maxListN ((matchedTags tg tokens).map (cget tg)) : ℝ))) ws[i]
      else ws[i]) := by
  unfold boost
  by_cases htg : tg = []
  · simp [htg, List.getElem?_eq_getElem h1]
  · by_cases hm : matchedTags tg tokens = []
    · simp [htg, hm, List.getElem?_eq_getElem h1]
    · have hz : i < (tokens.zip ws).length := by
        rw [List.length_zip]
        omega
      simp only [htg, hm, if_false, if_neg htg, if_neg hm]
      rw [List.getElem?_map, List.getElem?_eq_getElem hz, List.getElem_zip]
      simp only [Option.map_some, ne_eq, htg, hm, not_false_eq_true, true_and]
      by_cases hs : (dlookup tg tokens[i]).isSome <;> simp [hs]

/-- Claim C6: tag boosting.  With one weight per token, a matched token weight
becomes `max(maxWeight * (tagValue / maxTagValue), originalWeight)` where
`maxWeight` ranges over all weights and `maxTagValue` over the matched tags
only; unmatched tokens are unchanged; no weight ever decreases; the booster is
the identity when the tag statistics are empty or no token matches. -/
theorem claim_C6 (tg : List (Token × ℕ)) (tokens : List Token) (ws : List ℝ)
    (hlen : ws.length = tokens.length) :
    (boost tg tokens ws).length = ws.length ∧
    (∀ i (h1 : i < ws.length) (h2 : i < tokens.length), (dlookup tg tokens[i]).isSome →
      (boost tg tokens ws)[i]? = some (max (maxListR ws *
        ((cget tg tokens[i] : ℝ) / (maxListN ((matchedTags tg tokens).map (cget tg)) : ℝ)))
        ws[i])) ∧
    (∀ i (h1 : i < ws.length) (h2 : i < tokens.length), dlookup tg tokens[i] = none →
      (boost tg tokens ws)[i]? = some ws[i]) ∧
    (∀ i (h1 : i < ws.length) (h2 : i < tokens.length), ∀ w,
      (boost tg tokens ws)[i]? = some w → ws[i] ≤ w) ∧
    (tg = [] → boost tg tokens ws = ws) ∧
    ((∀ tk ∈ tokens, dlookup tg tk = none) → boost tg tokens ws = ws) := by
  refine ⟨boost_length tg tokens ws hlen, ?_, ?_, ?_, ?_, ?_⟩
  · intro i h1 h2 hsome
    rw [boost_getElem tg tokens ws hlen i h1 h2]
    have htg : tg ≠ [] := by
      rintro rfl
      simp [dlookup] at hsome
    have hm : matchedTags tg tokens ≠ [] :=
      List.ne_nil_of_mem (mem_matchedTags tg tokens tokens[i] (List.getElem_mem h2) hsome)
    rw [if_pos ⟨htg, hm, hsome⟩]
  · intro i h1 h2 hnone
    rw [boost_getElem tg tokens ws hlen i h1 h2]
    rw [if_neg]
    intro hcond
    rw [hnone] at hcond
    simp at hcond
  · intro i h1 h2 w hw
    rw [boost_getElem tg tokens ws hlen i h1 h2] at hw
    cases hw
    split
    · exact le_max_right _ _
    · exact le_refl _
  · intro h
    simp [boost, h]
  · intro h
    unfold boost
    rw [matchedTags_eq_nil tg tokens h]
    split_ifs <;> rfl

/-- Witness for C6 on tags x -> 10, tokens [x, y], weights [1, 2]. -/
theorem claim_C6_witness :
    (boost [("x", 10)] ["x", "y"] [(1 : ℝ), 2]).length = 2 ∧
    (boost [("x", 10)] ["x", "y"] [(1 : ℝ), 2])[1]? = some 2 := by
  obtain ⟨hl, hb, hnb, hmono, he, hnm⟩ :=
    claim_C6 [("x", 10)] ["x", "y"] [(1 : ℝ), 2] (by decide)
  refine ⟨by simpa using hl, ?_⟩
  have h := hnb 1 (by decide) (by decide) (by rfl)
  simpa using h

/-- Claim C5: the weights pipeline.  `weights` scores every token with the
in-sequence frequency, the idf value (with `avgidf` fallback for unseen
tokens) and the sequence length, then applies the Tag Booster; the output has
one weight per input token in order, and the default score law is
`idf * sqrt(freq) / sqrt(length)`. -/
theorem claim_C5 {τ : Type} (s : Scoring τ) (tokens : List Token) (hne : tokens ≠ []) :
    Scoring.weights s tokens = boost s.tags tokens (tokens.map (fun token =>
      score ((computefreq tokens token : ℕ) : ℝ) (idfOrAvg s token)
        ((tokens.length : ℕ) : ℝ))) ∧
    (Scoring.weights s tokens).length = tokens.length ∧
    (∀ f i l : ℝ, score f i l = i * Real.sqrt f / Real.sqrt l) ∧
    (∀ token v, dlookup s.idf token = some v → idfOrAvg s token = v) ∧
    (∀ token, dlookup s.idf token = none → idfOrAvg s token = s.avgidf) := by
  refine ⟨rfl, ?_, ?_, ?_, ?_⟩
  · have h := boost_length s.tags tokens (tokens.map (fun token =>
      score ((computefreq tokens token : ℕ) : ℝ) (idfOrAvg s token)
        ((tokens.length : ℕ) : ℝ))) (by simp)
    unfold Scoring.weights
    simpa using h
  · intro f i l
    unfold score
    rw [mul_one_div]
  · intro token v h
    unfold idfOrAvg
    rw [h]
  · intro token h
    unfold idfOrAvg
    rw [h]

/-- Witness for C5 on the sample state and the token list [a, b]. -/
theorem claim_C5_witness :
    Scoring.weights sampleState ["a", "b"] = boost sampleState.tags ["a", "b"]
      (["a", "b"].map (fun token => score ((computefreq ["a", "b"] token : ℕ) : ℝ)
        (idfOrAvg sampleState token) (((["a", "b"] : List Token).length : ℕ) : ℝ))) ∧
    (Scoring.weights sampleState ["a", "b"]).length = 2 := by
  obtain ⟨h1, h2, _, _, _⟩ := claim_C5 sampleState ["a", "b"] (by simp)
  exact ⟨h1, by simpa using h2⟩

/-! Lemmas about insert, finalize and results. -/

theorem ingest_preserves {τ : Type} (tins : τ → ℕ → List Token → τ) (s : Scoring τ)
    (uid : ℕ) (tokens2 : List Token) (content : Doc) (tags2 : String) :
    ((Scoring.ingest tins s uid tokens2 content tags2).avgscore = s.avgscore) ∧
    ((Scoring.ingest tins s uid tokens2 content tags2).text = s.text) ∧
    ((Scoring.ingest tins s uid tokens2 content tags2).object = s.object) ∧
    ((Scoring.ingest tins s uid tokens2 content tags2).total = s.total + 1) := by
  obtain ⟨cfg, total, tokens, avgdl, docfreq, wordfreq, avgfreq, idf, avgidf, tags,
    text, obj, terms, documents, normalize, avgscore⟩ := s
  rcases terms with _ | t <;> rcases documents with _ | ds <;>
    simp [Scoring.ingest, Scoring.addstats]

theorem insertOne_preserves {τ : Type} (tok : String → List Token)
    (tins : τ → ℕ → List Token → τ) (acc : Scoring τ × Option ℕ) (d : ℕ × Doc × String) :
    ((Scoring.insertOne tok tins acc d).1.avgscore = acc.1.avgscore) ∧
    ((Scoring.insertOne tok tins acc d).1.text = acc.1.text) ∧
    ((Scoring.insertOne tok tins acc d).1.object = acc.1.object) ∧
    ((Scoring.insertOne tok tins acc d).1.total
      = acc.1.total + (if accepts acc.1.text acc.1.object d then 1 else 0)) := by
  obtain ⟨s, idx⟩ := acc
  obtain ⟨uid0, document, tags2⟩ := d
  unfold Scoring.insertOne accepts
  rcases hx : extract s.text s.object document with _ | doc
  · simp [hx]
  · rcases doc with text2 | ts | fields | _ <;>
      simp [hx, ingest_preserves]

theorem insert_preserves {τ : Type} (tok : String → List Token)
    (tins : τ → ℕ → List Token → τ) (docs : List (ℕ × Doc × String)) :
    ∀ (s : Scoring τ) (idx : Option ℕ),
    ((Scoring.insert tok tins s docs idx).1.avgscore = s.avgscore) ∧
    ((Scoring.insert tok tins s docs idx).1.text = s.text) ∧
    ((Scoring.insert tok tins s docs idx).1.object = s.object) ∧
    ((Scoring.insert tok tins s docs idx).1.total
      = s.total + (docs.filter (accepts s.text s.object)).length) := by
  induction docs with
  | nil => intro s idx; simp [Scoring.insert]
  | cons d rest ih =>
    intro s idx
    obtain ⟨hA, hT, hO, hTot⟩ := insertOne_preserves tok tins (s, idx) d
    have hA2 : (Scoring.insertOne tok tins (s, idx) d).1.avgscore = s.avgscore := hA
    have hT2 : (Scoring.insertOne tok tins (s, idx) d).1.text = s.text := hT
    have hO2 : (Scoring.insertOne tok tins (s, idx) d).1.object = s.object := hO
    have hTot2 : (Scoring.insertOne tok tins (s, idx) d).1.total
        = s.total + (if accepts s.text s.object d then 1 else 0) := hTot
    obtain ⟨iA, iT, iO, iTot⟩ :=
      ih (Scoring.insertOne tok tins (s, idx) d).1 (Scoring.insertOne tok tins (s, idx) d).2
    rw [Scoring.insert] at iA iT iO iTot
    rw [hT2] at iT
    rw [hO2] at iO
    rw [hT2, hO2] at iTot
    rw [hA2] at iA
    rw [hTot2] at iTot
    rw [Scoring.insert, List.foldl_cons]
    rw [show Scoring.insertOne tok tins (s, idx) d
        = ((Scoring.insertOne tok tins (s, idx) d).1, (Scoring.insertOne tok tins (s, idx) d).2)
      from rfl]
    refine ⟨iA, iT, iO, ?_⟩
    rw [iTot]
    by_cases hacc : accepts s.text s.object d = true
    · rw [List.filter_cons_of_pos hacc, if_pos hacc]
      simp only [List.length_cons]
      omega
    · rw [List.filter_cons_of_neg (by simpa using hacc), if_neg hacc]
      omega

theorem index_none_eq {τ : Type} (tok : String → List Token)
    (tins : τ → ℕ → List Token → τ) (tindex : τ → τ) (s : Scoring τ) :
    Scoring.index tok tins tindex s none = termsStep tindex (Scoring.finalizeStats s) := rfl

theorem termsStep_stats {τ : Type} (tindex : τ → τ) (g : Scoring τ) :
    (termsStep tindex g).avgscore = g.avgscore ∧
    (termsStep tindex g).tokens = g.tokens ∧
    (termsStep tindex g).avgfreq = g.avgfreq ∧
    (termsStep tindex g).avgdl = g.avgdl ∧
    (termsStep tindex g).idf = g.idf ∧
    (termsStep tindex g).avgidf = g.avgidf ∧
    (termsStep tindex g).tags = g.tags ∧
    (termsStep tindex g).total = g.total := by
  obtain ⟨cfg, total, tokens, avgdl, docfreq, wordfreq, avgfreq, idf, avgidf, tags,
    text, obj, terms, documents, normalize, avgscore⟩ := g
  rcases terms with _ | t <;> simp [termsStep]

theorem index_stats_eq {τ : Type} (tok : String → List Token)
    (tins : τ → ℕ → List Token → τ) (tindex : τ → τ) (s : Scoring τ) :
    ((Scoring.index tok tins tindex s none).avgscore = (Scoring.finalizeStats s).avgscore) ∧
    ((Scoring.index tok tins tindex s none).tokens = (Scoring.finalizeStats s).tokens) ∧
    ((Scoring.index tok tins tindex s none).avgfreq = (Scoring.finalizeStats s).avgfreq) ∧
    ((Scoring.index tok tins tindex s none).avgdl = (Scoring.finalizeStats s).avgdl) ∧
    ((Scoring.index tok tins tindex s none).idf = (Scoring.finalizeStats s).idf) ∧
    ((Scoring.index tok tins tindex s none).avgidf = (Scoring.finalizeStats s).avgidf) ∧
    ((Scoring.index tok tins tindex s none).tags = (Scoring.finalizeStats s).tags) ∧
    ((Scoring.index tok tins tindex s none).total = (Scoring.finalizeStats s).total) := by
  rw [index_none_eq]
  exact termsStep_stats tindex (Scoring.finalizeStats s)

theorem finalizeStats_of_ne {τ : Type} (s : Scoring τ) (h : s.wordfreq ≠ []) :
    Scoring.finalizeStats s = { s with
      tokens := (s.wordfreq.map (fun p => p.2)).sum,
      avgfreq := (((s.wordfreq.map (fun p => p.2)).sum : ℕ) : ℝ) / (s.wordfreq.length : ℝ),
      avgdl := (((s.wordfreq.map (fun p => p.2)).sum : ℕ) : ℝ) / (s.total : ℝ),
      idf := s.docfreq.foldl (fun m p => dset m p.1 (computeidf s.total p.2)) s.idf,
      avgidf := (s.docfreq.map (fun p => computeidf s.total p.2)).sum / (s.docfreq.length : ℝ),
      avgscore := some (score
        ((((s.wordfreq.map (fun p => p.2)).sum : ℕ) : ℝ) / (s.wordfreq.length : ℝ))
        ((s.docfreq.map (fun p => computeidf s.total p.2)).sum / (s.docfreq.length : ℝ))
        ((((s.wordfreq.map (fun p => p.2)).sum : ℕ) : ℝ) / (s.total : ℝ))),
      tags := s.tags.filter (fun p => keepTag s.total p.2) } := by
  unfold Scoring.finalizeStats
  rw [if_neg h]

theorem finalizeStats_of_eq {τ : Type} (s : Scoring τ) (h : s.wordfreq = []) :
    Scoring.finalizeStats s = s := by
  unfold Scoring.finalizeStats
  rw [if_pos h]

theorem score_pos (f i l : ℝ) (hf : 0 < f) (hi : 0 < i) (hl : 0 < l) : 0 < score f i l := by
  unfold score
  have h1 : 0 < Real.sqrt f := Real.sqrt_pos.mpr hf
  have h2 : 0 < Real.sqrt l := Real.sqrt_pos.mpr hl
  have h3 : 0 < 1 / Real.sqrt l := by positivity
  exact mul_pos (mul_pos hi h1) h3

theorem results_scores_mem {documents : Option (List (ℕ × Doc))} {scores : List (ℕ × ℝ)}
    {r : ℕ × Option Doc × ℝ} (h : r ∈ Scoring.results documents scores) :
    ∃ p ∈ scores, r.2.2 = p.2 := by
  rcases documents with _ | ds
  · simp only [Scoring.results] at h
    obtain ⟨p, hp, rfl⟩ := List.mem_map.mp h
    exact ⟨p, hp, rfl⟩
  · simp only [Scoring.results] at h
    split_ifs at h <;>
    · obtain ⟨p, hp, rfl⟩ := List.mem_map.mp h
      exact ⟨p, hp, rfl⟩

/-- Claim C3: score normalization.  For a finalized engine with normalization
enabled and a non-empty term-index result list of non-negative scores, search
rescales with `maxscore = min(top + avgscore, 6 * avgscore)` and replaces each
score by `min(score / maxscore, 1.0)`, so every returned score lies in [0, 1].
The non-negativity of the raw scores and the positivity of `avgscore` reflect
the term-index contract and the finalize invariant (see C2). -/
theorem claim_C3 {τ : Type} (tsearch : τ → List Token → ℕ → List (ℕ × ℝ)) (s : Scoring τ)
    (t : τ) (query : List Token) (limit : ℕ) (a : ℝ) (i0 : ℕ) (top : ℝ)
    (rest : List (ℕ × ℝ))
    (ht : s.terms = some t) (hn : s.normalize = true) (ha : s.avgscore = some a)
    (hpos : 0 < a) (hs : tsearch t query limit = (i0, top) :: rest)
    (hnn : ∀ p ∈ tsearch t query limit, 0 ≤ p.2) :
    Scoring.search tsearch s query limit =
      Except.ok (some (Scoring.results s.documents (normalizeScores a ((i0, top) :: rest)))) ∧
    normalizeScores a ((i0, top) :: rest) = ((i0, top) :: rest).map
      (fun p => (p.1, min (p.2 / min (top + a) (6 * a)) 1)) ∧
    (∀ r ∈ Scoring.results s.documents (normalizeScores a ((i0, top) :: rest)),
      0 ≤ r.2.2 ∧ r.2.2 ≤ 1) := by
  have htop : 0 ≤ top := by
    have h := hnn (i0, top) (by rw [hs]; exact List.mem_cons_self _ _)
    simpa using h
  have hmax : 0 < min (top + a) (6 * a) := lt_min (by linarith) (by linarith)
  refine ⟨?_, rfl, ?_⟩
  · obtain ⟨cfg, total, tokens, avgdl, docfreq, wordfreq, avgfreq, idf, avgidf, tags,
      text, obj, terms, documents, normalize, avgscore⟩ := s
    simp only at ht hn ha
    subst ht hn ha
    simp [Scoring.search, hs]
  · intro r hr
    obtain ⟨p, hp, hpr⟩ := results_scores_mem hr
    simp only [normalizeScores] at hp
    obtain ⟨q, hq, rfl⟩ := List.mem_map.mp hp
    rw [hpr]
    constructor
    · exact le_min (div_nonneg (hnn q (by rw [hs]; exact hq)) hmax.le) zero_le_one
    · exact min_le_right _ _

/-- Witness for C3 on the sample state with avgscore 1 and raw scores 2 and 1. -/
theorem claim_C3_witness :
    normalizeScores 1 [((5 : ℕ), (2 : ℝ)), (6, 1)] = [((5 : ℕ), (2 : ℝ)), (6, 1)].map
      (fun p => (p.1, min (p.2 / min ((2 : ℝ) + 1) (6 * 1)) 1)) ∧
    (∀ r ∈ Scoring.results ({ sampleState with avgscore := some 1 }).documents
        (normalizeScores 1 [((5 : ℕ), (2 : ℝ)), (6, 1)]), 0 ≤ r.2.2 ∧ r.2.2 ≤ 1) := by
  obtain ⟨h1, h2, h3⟩ := claim_C3 (fun (_ : List ℕ) _ _ => [((5 : ℕ), (2 : ℝ)), (6, 1)])
    { sampleState with avgscore := some 1 } [] ["q"] 3 1 5 2 [(6, 1)]
    rfl rfl rfl (by norm_num) rfl
    (by rintro p hp; fin_cases hp <;> norm_num)
  exact ⟨h2, h3⟩

/-- Claim C2: degenerate normalization.  With normalization enabled and
`avgscore` undefined (None), a search with non-empty term matches fails with an
explicit error instead of computing on partial aggregates; `avgscore` is None at
construction and stays None across insert and across a finalize with empty
statistics; and a finalize over valid non-empty statistics always produces a
strictly positive `avgscore`, so the zero case never arises. -/
theorem claim_C2 {τ : Type} (tok : String → List Token) (tins : τ → ℕ → List Token → τ)
    (tindex : τ → τ) (tsearch : τ → List Token → ℕ → List (ℕ × ℝ)) (cfg : Config) (t0 : τ)
    (s s2 : Scoring τ) (docs : List (ℕ × Doc × String)) (idx : Option ℕ) (t : τ)
    (query : List Token) (limit : ℕ) :
    (s.normalize = true → s.avgscore = none → s.terms = some t →
      tsearch t query limit ≠ [] →
      ∃ msg, Scoring.search tsearch s query limit = Except.error msg) ∧
    (Scoring.init cfg t0 : Scoring τ).avgscore = none ∧
    (Scoring.insert tok tins s docs idx).1.avgscore = s.avgscore ∧
    (s2.wordfreq = [] → (Scoring.index tok tins tindex s2 none).avgscore = s2.avgscore) ∧
    (s2.wordfreq ≠ [] → (∀ p ∈ s2.wordfreq, 1 ≤ p.2) → s2.docfreq ≠ [] →
      (∀ p ∈ s2.docfreq, p.2 ≤ s2.total) → 0 < s2.total →
      ∃ a, (Scoring.index tok tins tindex s2 none).avgscore = some a ∧ 0 < a) := by
  refine ⟨?_, rfl, (insert_preserves tok tins docs s idx).1, ?_, ?_⟩
  · intro hn ha ht hne
    obtain ⟨cfg2, total, tokens, avgdl, docfreq, wordfreq, avgfreq, idf, avgidf, tags,
      text, obj, terms, documents, normalize, avgscore⟩ := s
    simp only at hn ha ht
    subst hn ha ht
    refine ⟨"avgscore is undefined before finalize", ?_⟩
    simp [Scoring.search, hne]
  · intro h
    rw [(index_stats_eq tok tins tindex s2).1, finalizeStats_of_eq s2 h]
  · intro hwf hge hdf hdfle htot
    rw [(index_stats_eq tok tins tindex s2).1, finalizeStats_of_ne s2 hwf]
    refine ⟨_, rfl, ?_⟩
    have hsum : 0 < (s2.wordfreq.map (fun p => p.2)).sum := by
      apply List.sum_pos
      · intro x hx
        obtain ⟨p, hp, rfl⟩ := List.mem_map.mp hx
        exact hge p hp
      · simpa using hwf
    have hA : 0 < (((s2.wordfreq.map (fun p => p.2)).sum : ℕ) : ℝ) /
        (s2.wordfreq.length : ℝ) := by
      apply div_pos
      · exact_mod_cast hsum
      · exact_mod_cast List.length_pos.mpr hwf
    have hB : 0 < (s2.docfreq.map (fun p => computeidf s2.total p.2)).sum /
        (s2.docfreq.length : ℝ) := by
      apply div_pos
      · apply List.sum_pos
        · intro x hx
          obtain ⟨p, hp, rfl⟩ := List.mem_map.mp hx
          exact lt_of_lt_of_le zero_lt_one (one_le_computeidf s2.total p.2 (hdfle p hp))
        · simpa using hdf
      · exact_mod_cast List.length_pos.mpr hdf
    have hC : 0 < (((s2.wordfreq.map (fun p => p.2)).sum : ℕ) : ℝ) / (s2.total : ℝ) := by
      apply div_pos
      · exact_mod_cast hsum
      · exact_mod_cast htot
    exact score_pos _ _ _ hA hB hC

/-- Witness for C2: a pre-finalize normalized search on the sample state fails,
and finalizing the sample state yields a positive avgscore. -/
theorem claim_C2_witness :
    (∃ msg, Scoring.search (fun (_ : List ℕ) _ _ => [((5 : ℕ), (2 : ℝ))]) sampleState ["q"] 3
      = Except.error msg) ∧
    (∃ a, (Scoring.index (fun _ => []) (fun (t : List ℕ) _ _ => t) id sampleState none).avgscore
      = some a ∧ 0 < a) := by
  obtain ⟨h1, h2, h3, h4, h5⟩ := claim_C2 (fun _ => []) (fun (t : List ℕ) _ _ => t) id
    (fun (_ : List ℕ) _ _ => [((5 : ℕ), (2 : ℝ))]) { } ([] : List ℕ)
    sampleState sampleState [] none [] ["q"] 3
  refine ⟨h1 rfl rfl rfl (by simp), h5 (by simp [sampleState]) ?_ (by simp [sampleState]) ?_ ?_⟩
  · intro p hp
    fin_cases hp <;> decide
  · intro p hp
    fin_cases hp <;> decide
  · decide

/-- Claim C7: batch search order and per-query equivalence.  Batch search
returns one result per query in input order (the i-th entry is the result of
searching the i-th query), and the result value does not depend on the thread
argument, so serial execution gives the same per-query results. -/
theorem claim_C7 {τ : Type} (tsearch : τ → List Token → ℕ → List (ℕ × ℝ)) (tcount : τ → ℕ)
    (cpus : ℕ) (s : Scoring τ) (queries : List (List Token)) (limit : ℕ)
    (th1 th2 : Bool ⊕ ℕ) :
    (Scoring.batchsearch tsearch tcount cpus s queries limit th1).length = queries.length ∧
    (∀ i : ℕ, (Scoring.batchsearch tsearch tcount cpus s queries limit th1)[i]?
      = (queries[i]?).map (fun q => Scoring.search tsearch s q limit)) ∧
    Scoring.batchsearch tsearch tcount cpus s queries limit th1
      = Scoring.batchsearch tsearch tcount cpus s queries limit th2 := by
  refine ⟨by simp [Scoring.batchsearch], ?_, rfl⟩
  intro i
  simp [Scoring.batchsearch]

/-- Claim C1: finalization postcondition.  Insert adds one to `total` per
accepted document; with non-empty word statistics, index()/finalize computes
`tokens` as the sum of `wordfreq` values, `avgfreq = tokens / #distinct`,
`avgdl = tokens / total`, an idf entry for every `docfreq` token, `avgidf` as
the mean of the idf values, `avgscore = score(avgfreq, avgidf, avgdl)`, prunes
`tags` to counts at least `total * 0.005` and preserves `total`; with empty
`wordfreq` all aggregates are untouched; a count of 10 out of 1000 documents is
kept while a count of 1 is pruned. -/
theorem claim_C1 {τ : Type} (tok : String → List Token) (tins : τ → ℕ → List Token → τ)
    (tindex : τ → τ) (s : Scoring τ) (docs : List (ℕ × Doc × String)) (idx : Option ℕ) :
    ((Scoring.insert tok tins s docs idx).1.total
      = s.total + (docs.filter (accepts s.text s.object)).length) ∧
    (s.wordfreq ≠ [] →
      ((Scoring.index tok tins tindex s none).tokens = (s.wordfreq.map (fun p => p.2)).sum ∧
       (Scoring.index tok tins tindex s none).avgfreq
         = (((s.wordfreq.map (fun p => p.2)).sum : ℕ) : ℝ) / (s.wordfreq.length : ℝ) ∧
       (Scoring.index tok tins tindex s none).avgdl
         = (((s.wordfreq.map (fun p => p.2)).sum : ℕ) : ℝ) / (s.total : ℝ) ∧
       ((s.docfreq.map Prod.fst).Nodup → ∀ p ∈ s.docfreq,
         dlookup (Scoring.index tok tins tindex s none).idf p.1
           = some (computeidf s.total p.2)) ∧
       (Scoring.index tok tins tindex s none).avgidf
         = (s.docfreq.map (fun p => computeidf s.total p.2)).sum / (s.docfreq.length : ℝ) ∧
       (Scoring.index tok tins tindex s none).avgscore
         = some (score
             ((((s.wordfreq.map (fun p => p.2)).sum : ℕ) : ℝ) / (s.wordfreq.length : ℝ))
             ((s.docfreq.map (fun p => computeidf s.total p.2)).sum / (s.docfreq.length : ℝ))
             ((((s.wordfreq.map (fun p => p.2)).sum : ℕ) : ℝ) / (s.total : ℝ))) ∧
       (Scoring.index tok tins tindex s none).tags
         = s.tags.filter (fun p => keepTag s.total p.2) ∧
       (Scoring.index tok tins tindex s none).total = s.total)) ∧
    (s.wordfreq = [] →
      ((Scoring.index tok tins tindex s none).tokens = s.tokens ∧
       (Scoring.index tok tins tindex s none).avgfreq = s.avgfreq ∧
       (Scoring.index tok tins tindex s none).avgdl = s.avgdl ∧
       (Scoring.index tok tins tindex s none).idf = s.idf ∧
       (Scoring.index tok tins tindex s none).avgidf = s.avgidf ∧
       (Scoring.index tok tins tindex s none).avgscore = s.avgscore ∧
       (Scoring.index tok tins tindex s none).tags = s.tags ∧
       (Scoring.index tok tins tindex s none).total = s.total)) ∧
    (keepTag 1000 10 = true ∧ keepTag 1000 1 = false) := by
  obtain ⟨hA, hTok, hFr, hDl, hIdf, hAvI, hTg, hTot⟩ := index_stats_eq tok tins tindex s
  refine ⟨(insert_preserves tok tins docs s idx).2.2.2, ?_, ?_, ?_⟩
  · intro hwf
    refine ⟨?_, ?_, ?_, ?_, ?_, ?_, ?_, ?_⟩
    · rw [hTok, finalizeStats_of_ne s hwf]
    · rw [hFr, finalizeStats_of_ne s hwf]
    · rw [hDl, finalizeStats_of_ne s hwf]
    · intro hnd p hp
      rw [hIdf, finalizeStats_of_ne s hwf]
      exact dlookup_foldl_dset (fun p => computeidf s.total p.2) s.docfreq s.idf hnd p hp
    · rw [hAvI, finalizeStats_of_ne s hwf]
    · rw [hA, finalizeStats_of_ne s hwf]
    · rw [hTg, finalizeStats_of_ne s hwf]
    · rw [hTot, finalizeStats_of_ne s hwf]
  · intro hwf
    refine ⟨?_, ?_, ?_, ?_, ?_, ?_, ?_, ?_⟩
    · rw [hTok, finalizeStats_of_eq s hwf]
    · rw [hFr, finalizeStats_of_eq s hwf]
    · rw [hDl, finalizeStats_of_eq s hwf]
    · rw [hIdf, finalizeStats_of_eq s hwf]
    · rw [hAvI, finalizeStats_of_eq s hwf]
    · rw [hA, finalizeStats_of_eq s hwf]
    · rw [hTg, finalizeStats_of_eq s hwf]
    · rw [hTot, finalizeStats_of_eq s hwf]
  · constructor <;> simp only [keepTag, decide_eq_true_eq, decide_eq_false_iff_not] <;> norm_num

/-- Witness for C1: finalizing the sample state preserves total 2 and assigns
the idf entry of token a from its document frequency 2. -/
theorem claim_C1_witness :
    (Scoring.index (fun _ => []) (fun (t : List ℕ) _ _ => t) id sampleState none).total
      = sampleState.total ∧
    dlookup (Scoring.index (fun _ => []) (fun (t : List ℕ) _ _ => t) id sampleState none).idf "a"
      = some (computeidf sampleState.total 2) := by
  obtain ⟨h1, h2, h3, h4⟩ :=
    claim_C1 (fun _ => []) (fun (t : List ℕ) _ _ => t) id sampleState [] none
  obtain ⟨g1, g2, g3, g4, g5, g6, g7, g8⟩ := h2 (by simp [sampleState])
  refine ⟨g8, ?_⟩
  have h := g4 (by simp [sampleState]) ("a", 2) (by simp [sampleState])
  simpa using h

end Txtai
